import Mathlib

/-!
# Verification of the libdebctrl RFC822 control-file parser

Shallow embedding of the parsing engine in `src/parser.c` (together with the
string utilities `dc_strchomp` / `dc_strchug` from `util.c` and the status and
chunk-type enumerations from the public headers), and proofs about it.

Strings are modelled as `List Char`; the input file is modelled as the list of
its physical lines (the text between newlines, as produced by `getline` — the
trailing `'\n'` is omitted here because the very first thing the engine does
with a line is strip trailing whitespace, which includes `'\n'`, and the only
pre-strip inspection is of the first character).  Diagnostics emitted through
the error handler (`dc_warn` / `dc_crit` call sites) are recorded in an event
log carried by the parser state.  Memory allocation is modelled as always
succeeding, so the `dcMemFullErr` paths are unreachable in the model.
-/

set_option maxRecDepth 4000

namespace Debctrl

/-- Status codes, from `dcStatus` in `error.h`. -/
inductive dcStatus where
  | dcNoErr
  | dcParameterErr
  | dcMemFullErr
  | dcFileErr
  | dcSyntaxErr
deriving DecidableEq, Repr

export dcStatus (dcNoErr dcParameterErr dcMemFullErr dcFileErr dcSyntaxErr)

/-- Chunk classification, from `enum dcParserChunkType` in `parser.h`. -/
inductive ChunkType where
  | CHUNK_EMPTY
  | CHUNK_MERGE
  | CHUNK_FIXED
deriving DecidableEq, Repr

/-- Parsing context, from `struct _dcParserContext`: file path and line number. -/
structure Context where
  path : List Char
  line : Nat
deriving DecidableEq, Repr

/-- A parsed chunk, from `struct _dcParserChunk`.  `text` is `none` exactly when
the C field is `NULL`.  The intra-block `next`/`prev` links are represented by
the position of the chunk in its block's list. -/
structure Chunk where
  text : Option (List Char)
  type : ChunkType
  ctx  : Context
deriving DecidableEq, Repr

/-- A parsed block (one field), from `struct _dcParserBlock`.  The
`head`/`tail` chunk pointers are represented by the chunk list. -/
structure Block where
  name   : List Char
  chunks : List Chunk
deriving DecidableEq, Repr

/-- A parsed section (one paragraph), from `struct _dcParserSection`.  The
`head`/`tail` block pointers are represented by the block list. -/
structure Sect where
  blocks : List Block
deriving DecidableEq, Repr

/-- One diagnostic event, identifying the `dc_warn`/`dc_crit` call site in
`parser.c` and the context passed to it (`dc_crit` for a failed `fopen` passes
a `NULL` context, hence no `Context` argument on that constructor). -/
inductive Diag where
  | warnMultipleBlank (ctx : Context)
  | warnDuplicateField (ctx : Context)
  | critContinuation (ctx : Context)
  | critReservedDot (ctx : Context)
  | critNoColon (ctx : Context)
  | critFileOpen
deriving DecidableEq, Repr

/-- Whether a diagnostic was emitted via `dc_crit` (as opposed to `dc_warn`). -/
def Diag.isCrit : Diag → Bool
  | .warnMultipleBlank _ => false
  | .warnDuplicateField _ => false
  | _ => true

/-- The parser state, from `struct _dcParser`.  The `head`/`tail` section
pointers are represented by the section list (`tail` is the last element).
`diags` is the log of diagnostics emitted through the handler. -/
structure Parser where
  sections : List Sect
  ctx      : Context
  diags    : List Diag
deriving DecidableEq, Repr

/-- A freshly constructed parser (`dc_parser_new`): no sections, line 0,
empty path, default handler (log empty). -/
def dc_parser_new : Parser := ⟨[], ⟨[], 0⟩, []⟩

/-- Record a diagnostic emitted through the error handler. -/
def addDiag (p : Parser) (d : Diag) : Parser :=
  { p with diags := p.diags ++ [d] }

/-- Whitespace stripped by `dc_strchomp` (space, tab, CR, LF). -/
def isChompWS (c : Char) : Bool :=
  c.toNat == 32 || c.toNat == 9 || c.toNat == 13 || c.toNat == 10

/-- `dc_strchomp` from `util.c`: strip trailing whitespace in place. -/
def dc_strchomp (l : List Char) : List Char :=
  (l.reverse.dropWhile isChompWS).reverse

/-- `dc_strchug` from `util.c`: skip leading spaces and tabs. -/
def dc_strchug (l : List Char) : List Char :=
  l.dropWhile (fun c => c.toNat == 32 || c.toNat == 9)

/-- `tolower` as used by `strcasecmp` on ASCII field names. -/
def dc_tolower (c : Char) : Char :=
  if 65 ≤ c.toNat ∧ c.toNat ≤ 90 then Char.ofNat (c.toNat + 32) else c

/-- Lower-cased image of a name, so that `strcasecmp a b == 0` is modelled by
`lcase a = lcase b`. -/
def lcase (l : List Char) : List Char := l.map dc_tolower

/-- `strcasecmp(block->name, field) == 0`, the match test used by
`dc_parser_section_find`. -/
def nameMatches (field : List Char) (b : Block) : Bool :=
  lcase b.name == lcase field

/-- Replace the last element of a list (the entity a C `tail` pointer points
to), leaving everything else unchanged. -/
def updateLast (f : α → α) : List α → List α
  | [] => []
  | [a] => [f a]
  | a :: b :: t => a :: updateLast f (b :: t)

/-- Replace the first element satisfying `q` (the block returned by
`dc_parser_section_find`, which scans from the head), leaving the rest
unchanged. -/
def updateFirstMatch (q : α → Bool) (f : α → α) : List α → List α
  | [] => []
  | a :: t => if q a then f a :: t else a :: updateFirstMatch q f t

/-- The section the parser's `tail` pointer designates (meaningful only when
at least one section exists). -/
def lastSec (p : Parser) : Sect :=
  (p.sections.getLast?).getD ⟨[]⟩

/-- `dc_parser_block_append`: append a chunk at the tail of a block. -/
def blockAppendChunk (c : Chunk) (b : Block) : Block :=
  { b with chunks := b.chunks ++ [c] }

/-- `dc_parser_block_append(parser->tail->tail, chunk)`: append a chunk to the
last block of the last section. -/
def appendChunkLast (secs : List Sect) (c : Chunk) : List Sect :=
  updateLast (fun s => ⟨updateLast (blockAppendChunk c) s.blocks⟩) secs

/-- `dc_parse_chunk` from `parser.c` (lines 543–608): classify a continuation
line and append the resulting chunk to the last open block.  `line` is the
chomped line (its first character is a space or tab at every call site).  The
`[]` and `[_]` cases mirror the C code reading `line[1] == '\0'` and falling
through to the mergeable branch with `line + 1` (they are unreachable from
`dc_parser_read_line`, which only passes chomped lines whose first character
is whitespace, hence of length at least two). -/
def dc_parse_chunk (p : Parser) (line : List Char) : dcStatus × Parser :=
  if (lastSec p).blocks.isEmpty then
    (dcSyntaxErr, addDiag p (.critContinuation p.ctx))
  else
    match line with
    | [] => (dcNoErr, { p with sections := appendChunkLast p.sections ⟨some [], .CHUNK_MERGE, p.ctx⟩ })
    | [_] => (dcNoErr, { p with sections := appendChunkLast p.sections ⟨some [], .CHUNK_MERGE, p.ctx⟩ })
    | _ :: c1 :: rest =>
      if c1 == '.' then
        if rest.isEmpty then
          (dcNoErr, { p with sections := appendChunkLast p.sections ⟨none, .CHUNK_EMPTY, p.ctx⟩ })
        else
          (dcSyntaxErr, addDiag p (.critReservedDot p.ctx))
      else if c1.toNat == 32 || c1.toNat == 9 then
        (dcNoErr, { p with sections := appendChunkLast p.sections ⟨some rest, .CHUNK_FIXED, p.ctx⟩ })
      else
        (dcNoErr, { p with sections := appendChunkLast p.sections ⟨some (c1 :: rest), .CHUNK_MERGE, p.ctx⟩ })

/-- Split a line at its first colon, as the scan loop in `dc_parse_block` does
(`*text == ':'` replaced by NUL).  Returns `none` when the line contains no
colon, which for the nonempty lines `dc_parse_block` receives is exactly the
condition `*text == '\0' && *(text-1) != '\0'` of the syntax-error branch. -/
def splitColon : List Char → Option (List Char × List Char)
  | [] => none
  | c :: rest =>
    if c == ':' then some ([], rest)
    else
      match splitColon rest with
      | some (f, t) => some (c :: f, t)
      | none => none

/-- The value chunk built by `dc_parse_block` (lines 690–706): trim leading
whitespace from the text after the colon; kind `CHUNK_EMPTY` (no text) when
nothing remains, else `CHUNK_FIXED` with the trimmed text, stamped with the
current context. -/
def mkValueChunk (ctx : Context) (rawtext : List Char) : Chunk :=
  if (dc_strchug rawtext).isEmpty then ⟨none, .CHUNK_EMPTY, ctx⟩
  else ⟨some (dc_strchug rawtext), .CHUNK_FIXED, ctx⟩

/-- `dc_parse_block` from `parser.c` (lines 624–713): open a field line.
Split at the first colon (no colon on a nonempty line is a syntax error),
merge into an existing block of the same case-insensitive name (the first
match from the head, as found by `dc_parser_section_find`, with a warning) or
create and append a new block, then append the value chunk. -/
def dc_parse_block (p : Parser) (line : List Char) : dcStatus × Parser :=
  match splitColon line with
  | none => (dcSyntaxErr, addDiag p (.critNoColon p.ctx))
  | some (field, rawtext) =>
    if (lastSec p).blocks.any (nameMatches field) then
      (dcNoErr,
        { p with
          diags := p.diags ++ [.warnDuplicateField p.ctx],
          sections := updateLast
            (fun s => ⟨updateFirstMatch (nameMatches field)
              (blockAppendChunk (mkValueChunk p.ctx rawtext)) s.blocks⟩)
            p.sections })
    else
      (dcNoErr,
        { p with
          sections := updateLast
            (fun s => ⟨s.blocks ++ [⟨field, [mkValueChunk p.ctx rawtext]⟩]⟩) p.sections })

/-- Advance the line counter (`parser->ctx.line++`). -/
def bump (p : Parser) : Parser :=
  { p with ctx := ⟨p.ctx.path, p.ctx.line + 1⟩ }

/-- The body of `dc_parser_read_line` after the comment check and the trailing
whitespace strip (`parser.c` lines 819–847): an empty line is a paragraph
boundary (warn when the current section has no blocks yet, otherwise append a
fresh empty section); a line starting with whitespace is a continuation; any
other line is a field line. -/
def readChomped (p : Parser) : List Char → dcStatus × Parser
  | [] =>
    if (lastSec p).blocks.isEmpty then
      (dcNoErr, addDiag p (.warnMultipleBlank p.ctx))
    else
      (dcNoErr, { p with sections := p.sections ++ [⟨[]⟩] })
  | c :: rest =>
    if c.toNat == 32 || c.toNat == 9 then dc_parse_chunk p (c :: rest)
    else dc_parse_block p (c :: rest)

/-- `dc_parser_read_line` from `parser.c` (lines 794–848): parameter check
(`parser->head == NULL`), line-counter increment, comment check on the raw
line, then classification of the chomped line. -/
def dc_parser_read_line (p : Parser) (line : List Char) : dcStatus × Parser :=
  if p.sections.isEmpty then (dcParameterErr, p)
  else if line.head? == some '#' then (dcNoErr, bump p)
  else readChomped (bump p) (dc_strchomp line)

/-- The `getline` loop of `dc_parser_read_file` (lines 763–770): process lines
until one of them fails, keeping the status of the last processed line.  `rc`
is the value of the C variable `rc` so far: it starts out `none` because `rc`
is declared without an initializer, so a file with zero lines returns an
indeterminate status. -/
def readLoop (p : Parser) (rc : Option dcStatus) : List (List Char) → Option dcStatus × Parser
  | [] => (rc, p)
  | l :: ls =>
    if (dc_parser_read_line p l).1 = dcNoErr then
      readLoop (dc_parser_read_line p l).2 (some dcNoErr) ls
    else (some (dc_parser_read_line p l).1, (dc_parser_read_line p l).2)

/-- `dc_parser_read_file` from `parser.c` (lines 730–776).  `file` is `none`
when `fopen` fails, otherwise the list of the file's lines.  On a non-fresh
document the call fails with `dcParameterErr`; on open failure a critical
diagnostic with no context is emitted and `dcFileErr` returned; otherwise one
fresh empty section is appended and the lines are processed in order. -/
def dc_parser_read_file (p : Parser) (path : List Char) (file : Option (List (List Char))) :
    Option dcStatus × Parser :=
  if !p.sections.isEmpty then (some dcParameterErr, p)
  else
    let p := { p with ctx := ⟨path, p.ctx.line⟩ }
    match file with
    | none => (some dcFileErr, addDiag p .critFileOpen)
    | some lines => readLoop { p with sections := [⟨[]⟩] } none lines

/-- Rendering of one non-head chunk by the loop in `dc_parser_block_string`
(lines 301–319): `CHUNK_EMPTY` renders as a lone " ." line; otherwise one
space (plus a second for `CHUNK_FIXED`) and the chunk text.  The result is
`none` when the chunk text is `NULL` in a non-empty chunk, because
`dc_string_append` requires (asserts) a non-`NULL` string. -/
def renderTailChunk (c : Chunk) : Option (List Char) :=
  match c.type with
  | .CHUNK_EMPTY => some [' ', '.', '\n']
  | .CHUNK_MERGE => c.text.map (fun t => ' ' :: (t ++ ['\n']))
  | .CHUNK_FIXED => c.text.map (fun t => ' ' :: ' ' :: (t ++ ['\n']))

/-- Render a list of non-head chunks in order. -/
def renderTailChunks : List Chunk → Option (List Char)
  | [] => some []
  | c :: cs =>
    match renderTailChunk c, renderTailChunks cs with
    | some x, some y => some (x ++ y)
    | _, _ => none

/-- `dc_parser_block_string` from `parser.c` (lines 279–324): flatten a block
back to text.  The result is `none` when the C code cannot produce a string:
the block has no chunks (`assert(block->head != NULL)`), or a chunk whose text
is appended is `NULL` (`dc_string_append` asserts its argument non-`NULL`; the
head chunk's text is always appended, whatever its kind). -/
def dc_parser_block_string (b : Block) : Option (List Char) :=
  match b.chunks with
  | [] => none
  | c :: rest =>
    match c.text with
    | none => none
    | some t =>
      (renderTailChunks rest).map
        (fun tail => b.name ++ (':' :: ' ' :: t) ++ '\n' :: tail)

/-! ## Helper lemmas about the list operations of the embedding -/

theorem updateLast_cons_cons (f : α → α) (a b : α) (t : List α) :
    updateLast f (a :: b :: t) = a :: updateLast f (b :: t) := rfl

theorem updateLast_ne_nil (f : α → α) {l : List α} (h : l ≠ []) :
    updateLast f l ≠ [] := by
  cases l with
  | nil => exact absurd rfl h
  | cons a t => cases t <;> simp [updateLast]

theorem length_updateLast (f : α → α) (l : List α) :
    (updateLast f l).length = l.length := by
  induction l with
  | nil => rfl
  | cons a t ih =>
    cases t with
    | nil => rfl
    | cons b t2 => simpa [updateLast_cons_cons] using ih

theorem updateLast_isEmpty (f : α → α) (l : List α) :
    (updateLast f l).isEmpty = l.isEmpty := by
  cases l with
  | nil => rfl
  | cons a t =>
    cases t with
    | nil => rfl
    | cons b t2 => simp [updateLast_cons_cons, List.isEmpty]

theorem dropLast_updateLast (f : α → α) (l : List α) :
    (updateLast f l).dropLast = l.dropLast := by
  induction l with
  | nil => rfl
  | cons a t ih =>
    cases t with
    | nil => rfl
    | cons b t2 =>
      have hne : updateLast f (b :: t2) ≠ [] := updateLast_ne_nil f (by simp)
      rw [updateLast_cons_cons]
      cases hul : updateLast f (b :: t2) with
      | nil => exact absurd hul hne
      | cons x xs =>
        rw [List.dropLast_cons₂, List.dropLast_cons₂, ← hul]
        simpa [hul] using ih

theorem getLast?_updateLast (f : α → α) (l : List α) :
    (updateLast f l).getLast? = l.getLast?.map f := by
  induction l with
  | nil => rfl
  | cons a t ih =>
    cases t with
    | nil => rfl
    | cons b t2 =>
      have hne : updateLast f (b :: t2) ≠ [] := updateLast_ne_nil f (by simp)
      rw [updateLast_cons_cons]
      cases hul : updateLast f (b :: t2) with
      | nil => exact absurd hul hne
      | cons x xs =>
        rw [List.getLast?_cons_cons, ← hul, List.getLast?_cons_cons, ih]

theorem mem_updateLast (f : α → α) {l : List α} {x : α} (hx : x ∈ updateLast f l) :
    x ∈ l ∨ ∃ a, l.getLast? = some a ∧ x = f a := by
  induction l with
  | nil => simp [updateLast] at hx
  | cons a t ih =>
    cases t with
    | nil =>
      simp only [updateLast, List.mem_singleton] at hx
      exact Or.inr ⟨a, by simp, hx⟩
    | cons b t2 =>
      rw [updateLast_cons_cons, List.mem_cons] at hx
      rcases hx with rfl | hx
      · exact Or.inl (List.mem_cons_self _ _)
      · rcases ih hx with h | ⟨c, hc, rfl⟩
        · exact Or.inl (List.mem_cons_of_mem _ h)
        · exact Or.inr ⟨c, by rwa [List.getLast?_cons_cons], rfl⟩

theorem mem_of_getLast?_eq {l : List α} {a : α} (h : l.getLast? = some a) : a ∈ l := by
  cases l with
  | nil => simp at h
  | cons x t =>
    rw [List.getLast?_eq_getLast_of_ne_nil (by simp), Option.some_inj] at h
    exact h ▸ List.getLast_mem (by simp)

theorem map_updateFirstMatch (q : α → Bool) (f : α → α) (g : α → β)
    (hg : ∀ a, g (f a) = g a) (l : List α) :
    (updateFirstMatch q f l).map g = l.map g := by
  induction l with
  | nil => rfl
  | cons a t ih =>
    by_cases hq : q a
    · simp [updateFirstMatch, hq, hg]
    · simp [updateFirstMatch, hq, ih]

theorem updateFirstMatch_eq_set (q : α → Bool) (f : α → α) (d : α) {l : List α}
    (h : l.any q = true) :
    ∃ i, i < l.length ∧ q (l.getD i d) = true ∧
      (∀ j, j < i → q (l.getD j d) = false) ∧
      updateFirstMatch q f l = l.set i (f (l.getD i d)) := by
  induction l with
  | nil => simp at h
  | cons a t ih =>
    by_cases hq : q a
    · exact ⟨0, by simp, by simpa using hq, fun j hj => absurd hj (by omega),
        by simp [updateFirstMatch, hq]⟩
    · have ht : t.any q = true := by
        simp only [List.any_cons, hq, Bool.false_or] at h
        exact h
      rcases ih ht with ⟨i, hi, hqi, hqlt, heq⟩
      refine ⟨i + 1, by simpa using hi, by simpa using hqi, ?_, ?_⟩
      · intro j hj
        cases j with
        | zero => simpa using hq
        | succ j2 => simpa using hqlt j2 (by omega)
      · simp [updateFirstMatch, hq, heq]

/-! ## Helper lemmas about `dc_strchomp` and `splitColon` -/

theorem chomp_append (l : List Char) :
    l = dc_strchomp l ++ (l.reverse.takeWhile isChompWS).reverse :=
  calc l = l.reverse.reverse := (l.reverse_reverse).symm
  _ = (l.reverse.takeWhile isChompWS ++ l.reverse.dropWhile isChompWS).reverse := by
      rw [List.takeWhile_append_dropWhile]
  _ = (l.reverse.dropWhile isChompWS).reverse ++ (l.reverse.takeWhile isChompWS).reverse := by
      rw [List.reverse_append]
  _ = dc_strchomp l ++ (l.reverse.takeWhile isChompWS).reverse := rfl

theorem head?_of_chomp {l : List Char} (h : dc_strchomp l ≠ []) :
    l.head? = (dc_strchomp l).head? := by
  conv_lhs => rw [chomp_append l]
  exact List.head?_append_of_ne_nil _ h

theorem mem_of_mem_chomp {l : List Char} {c : Char} (h : c ∈ dc_strchomp l) : c ∈ l := by
  rw [chomp_append l]
  exact List.mem_append_left _ h

theorem all_ws_of_chomp_nil {l : List Char} (h : dc_strchomp l = []) :
    ∀ c ∈ l, isChompWS c = true := by
  intro c hc
  rw [chomp_append l, h, List.nil_append, List.mem_reverse] at hc
  exact List.mem_takeWhile_imp hc

theorem splitColon_eq_none {l : List Char} (h : ':' ∉ l) : splitColon l = none := by
  induction l with
  | nil => rfl
  | cons c t ih =>
    have hc : c ≠ ':' := fun hcc => h (hcc ▸ List.mem_cons_self _ _)
    have ht : ':' ∉ t := fun htc => h (List.mem_cons_of_mem _ htc)
    simp [splitColon, hc, ih ht]

theorem mem_dropLast_or_getLast {l : List α} {x : α} (hx : x ∈ l) :
    x ∈ l.dropLast ∨ l.getLast? = some x := by
  induction l with
  | nil => simp at hx
  | cons a t ih =>
    cases t with
    | nil =>
      simp only [List.mem_singleton] at hx
      exact Or.inr (by simp [hx])
    | cons b t2 =>
      rw [List.mem_cons] at hx
      rcases hx with rfl | hx
      · exact Or.inl (by simp [List.dropLast_cons₂])
      · rcases ih hx with h | h
        · exact Or.inl (by simp [List.dropLast_cons₂, h])
        · exact Or.inr (by rwa [List.getLast?_cons_cons])

theorem map_updateLast (f : α → α) (g : α → β) (hg : ∀ a, g (f a) = g a) (l : List α) :
    (updateLast f l).map g = l.map g := by
  induction l with
  | nil => rfl
  | cons a t ih =>
    cases t with
    | nil => simp [updateLast, hg]
    | cons b t2 => simpa [updateLast_cons_cons] using ih

/-! ## The shape of one engine step

`dc_parser_read_line` changes the section list in exactly one of five ways:
not at all (parameter error, comment, repeated blank line, or any syntax
error), by appending a fresh empty section (blank line closing a non-empty
section), by appending a chunk to the last block of the last section
(continuation line), by appending a chunk to the first name-matching block of
the last section (duplicate field line), or by appending a brand-new
one-chunk block to the last section (fresh field line, whose name matches no
existing block of that section). -/
theorem sections_step (p : Parser) (l : List Char) :
    (dc_parser_read_line p l).2.sections = p.sections ∨
    ((dc_parser_read_line p l).2.sections = p.sections ++ [⟨[]⟩] ∧
      (lastSec p).blocks.isEmpty = false) ∨
    (∃ c, (dc_parser_read_line p l).2.sections = appendChunkLast p.sections c) ∨
    (∃ q c, (dc_parser_read_line p l).2.sections =
      updateLast (fun s => ⟨updateFirstMatch q (blockAppendChunk c) s.blocks⟩) p.sections) ∨
    (∃ nm c, (lastSec p).blocks.any (nameMatches nm) = false ∧
      (dc_parser_read_line p l).2.sections =
        updateLast (fun s => ⟨s.blocks ++ [⟨nm, [c]⟩]⟩) p.sections) := by
  unfold dc_parser_read_line
  split
  · exact Or.inl rfl
  · split
    · exact Or.inl rfl
    · unfold readChomped
      split
      · split
        · exact Or.inl rfl
        · rename_i hne
          refine Or.inr (Or.inl ⟨rfl, ?_⟩)
          simpa [lastSec, bump] using hne
      · split
        · unfold dc_parse_chunk
          split
          · exact Or.inl rfl
          · split
            · exact Or.inr (Or.inr (Or.inl ⟨_, rfl⟩))
            · exact Or.inr (Or.inr (Or.inl ⟨_, rfl⟩))
            · split
              · split
                · exact Or.inr (Or.inr (Or.inl ⟨_, rfl⟩))
                · exact Or.inl rfl
              · split
                · exact Or.inr (Or.inr (Or.inl ⟨_, rfl⟩))
                · exact Or.inr (Or.inr (Or.inl ⟨_, rfl⟩))
        · unfold dc_parse_block
          split
          · exact Or.inl rfl
          · rename_i field rawtext heq
            split
            · exact Or.inr (Or.inr (Or.inr (Or.inl ⟨_, _, rfl⟩)))
            · rename_i hany
              refine Or.inr (Or.inr (Or.inr (Or.inr ⟨field, mkValueChunk (bump p).ctx rawtext, ?_, rfl⟩)))
              simpa [lastSec, bump] using hany

/-! ## Invariants preserved by every engine step -/

/-- The names of the blocks of a section are pairwise distinct
case-insensitively (the invariant stated for `dcParserSection`). -/
def sectionOK (s : Sect) : Prop :=
  (s.blocks.map fun b => lcase b.name).Pairwise (· ≠ ·)

/-- Every section of the document satisfies `sectionOK`. -/
def docOK (p : Parser) : Prop := ∀ s ∈ p.sections, sectionOK s

/-- Every section other than the current (last) one has at least one block. -/
def nonTailNonempty (p : Parser) : Prop :=
  ∀ s ∈ p.sections.dropLast, s.blocks.isEmpty = false

theorem sectionOK_appendChunk (c : Chunk) (s : Sect) (h : sectionOK s) :
    sectionOK ⟨updateLast (blockAppendChunk c) s.blocks⟩ := by
  unfold sectionOK at h ⊢
  show (List.map (fun b => lcase b.name) (updateLast (blockAppendChunk c) s.blocks)).Pairwise (· ≠ ·)
  rw [map_updateLast (blockAppendChunk c) (fun b => lcase b.name) (fun b => rfl) s.blocks]
  exact h

theorem sectionOK_mergeChunk (q : Block → Bool) (c : Chunk) (s : Sect) (h : sectionOK s) :
    sectionOK ⟨updateFirstMatch q (blockAppendChunk c) s.blocks⟩ := by
  unfold sectionOK at h ⊢
  show (List.map (fun b => lcase b.name)
    (updateFirstMatch q (blockAppendChunk c) s.blocks)).Pairwise (· ≠ ·)
  rw [map_updateFirstMatch q (blockAppendChunk c) (fun b => lcase b.name) (fun b => rfl) s.blocks]
  exact h

theorem sectionOK_newBlock (nm : List Char) (c : Chunk) (s : Sect)
    (h : sectionOK s) (hany : s.blocks.any (nameMatches nm) = false) :
    sectionOK ⟨s.blocks ++ [(⟨nm, [c]⟩ : Block)]⟩ := by
  unfold sectionOK at h ⊢
  rw [List.map_append, List.pairwise_append]
  refine ⟨h, by simp, ?_⟩
  intro a ha b hb
  simp only [List.map_cons, List.map_nil, List.mem_singleton] at hb
  subst hb
  rcases List.mem_map.mp ha with ⟨blk, hblk, rfl⟩
  intro hcontra
  have : nameMatches nm blk = true := by
    unfold nameMatches
    exact beq_iff_eq.mpr hcontra
  have : s.blocks.any (nameMatches nm) = true := List.any_eq_true.mpr ⟨blk, hblk, this⟩
  rw [this] at hany
  exact Bool.true_eq_false.mp hany

theorem docOK_step (p : Parser) (l : List Char) (h : docOK p) :
    docOK (dc_parser_read_line p l).2 := by
  intro s hs
  rcases sections_step p l with hsec | ⟨hsec, _⟩ | ⟨c, hsec⟩ | ⟨q, c, hsec⟩ |
    ⟨nm, c, hany, hsec⟩ <;> rw [hsec] at hs
  · exact h s hs
  · rcases List.mem_append.mp hs with h1 | h2
    · exact h s h1
    · simp only [List.mem_singleton] at h2
      subst h2
      simp [sectionOK]
  · rcases mem_updateLast _ hs with h1 | ⟨a, ha, rfl⟩
    · exact h s h1
    · exact sectionOK_appendChunk _ _ (h a (mem_of_getLast?_eq ha))
  · rcases mem_updateLast _ hs with h1 | ⟨a, ha, rfl⟩
    · exact h s h1
    · exact sectionOK_mergeChunk _ _ _ (h a (mem_of_getLast?_eq ha))
  · rcases mem_updateLast _ hs with h1 | ⟨a, ha, rfl⟩
    · exact h s h1
    · refine sectionOK_newBlock _ _ _ (h a (mem_of_getLast?_eq ha)) ?_
      have hla : lastSec p = a := by simp [lastSec, ha]
      rwa [hla] at hany

theorem nonTail_step (p : Parser) (l : List Char) (h : nonTailNonempty p) :
    nonTailNonempty (dc_parser_read_line p l).2 := by
  intro s hs
  rcases sections_step p l with hsec | ⟨hsec, hne⟩ | ⟨c, hsec⟩ | ⟨q, c, hsec⟩ |
    ⟨nm, c, _, hsec⟩ <;> rw [hsec] at hs
  · exact h s hs
  · rw [List.dropLast_concat] at hs
    rcases mem_dropLast_or_getLast hs with h1 | h2
    · exact h s h1
    · have hla : lastSec p = s := by simp [lastSec, h2]
      rwa [hla] at hne
  · unfold appendChunkLast at hs
    rw [dropLast_updateLast] at hs
    exact h s hs
  · rw [dropLast_updateLast] at hs
    exact h s hs
  · rw [dropLast_updateLast] at hs
    exact h s hs

theorem sectionsNonempty_step (p : Parser) (l : List Char)
    (h : p.sections.isEmpty = false) :
    (dc_parser_read_line p l).2.sections.isEmpty = false := by
  rcases sections_step p l with hsec | ⟨hsec, _⟩ | ⟨c, hsec⟩ | ⟨q, c, hsec⟩ |
    ⟨nm, c, _, hsec⟩ <;> rw [hsec]
  · exact h
  · cases p.sections <;> simp
  · unfold appendChunkLast
    rwa [updateLast_isEmpty]
  · rwa [updateLast_isEmpty]
  · rwa [updateLast_isEmpty]

/-! ## The read loop -/

theorem readLoop_inv (P : Parser → Prop)
    (hstep : ∀ p l, P p → P (dc_parser_read_line p l).2) :
    ∀ (ls : List (List Char)) (p : Parser) (rc : Option dcStatus),
      P p → P (readLoop p rc ls).2 := by
  intro ls
  induction ls with
  | nil => exact fun p rc hp => hp
  | cons l t ih =>
    intro p rc hp
    unfold readLoop
    split
    · exact ih _ _ (hstep p l hp)
    · exact hstep p l hp

theorem readLoop_cons (p : Parser) (rc : Option dcStatus) (l : List Char)
    (ls : List (List Char)) :
    readLoop p rc (l :: ls) =
      if (dc_parser_read_line p l).1 = dcNoErr then
        readLoop (dc_parser_read_line p l).2 (some dcNoErr) ls
      else (some (dc_parser_read_line p l).1, (dc_parser_read_line p l).2) := rfl

theorem readLoop_append (rest : List (List Char)) :
    ∀ (pre : List (List Char)) (p : Parser) (rc : Option dcStatus),
      ((readLoop p rc pre).1 = none ∨ (readLoop p rc pre).1 = some dcNoErr) →
      readLoop p rc (pre ++ rest) =
        readLoop (readLoop p rc pre).2 (readLoop p rc pre).1 rest := by
  intro pre
  induction pre with
  | nil => exact fun p rc _ => rfl
  | cons l t ih =>
    intro p rc h
    by_cases hl : (dc_parser_read_line p l).1 = dcNoErr
    · have h2 : readLoop p rc (l :: t) = readLoop (dc_parser_read_line p l).2 (some dcNoErr) t := by
        rw [readLoop_cons, if_pos hl]
      rw [h2] at h
      rw [List.cons_append, readLoop_cons, if_pos hl, h2]
      exact ih _ _ h
    · exfalso
      have h2 : readLoop p rc (l :: t) =
          (some (dc_parser_read_line p l).1, (dc_parser_read_line p l).2) := by
        rw [readLoop_cons, if_neg hl]
      rw [h2] at h
      rcases h with h | h
      · exact Option.noConfusion h
      · exact hl (Option.some_inj.mp h)

/-! ## Dispatch helpers for `dc_parser_read_line` -/

theorem lastSec_bump (p : Parser) : lastSec (bump p) = lastSec p := rfl

theorem sections_isEmpty_false_of_blocks {p : Parser}
    (h : (lastSec p).blocks.isEmpty = false) : p.sections.isEmpty = false := by
  cases hs : p.sections with
  | nil =>
    exfalso
    unfold lastSec at h
    rw [hs] at h
    simp at h
  | cons a t => rfl

theorem read_line_eq_readChomped (p : Parser) (raw : List Char)
    (hsec : p.sections.isEmpty = false) (hcm : raw.head? ≠ some '#') :
    dc_parser_read_line p raw = readChomped (bump p) (dc_strchomp raw) := by
  unfold dc_parser_read_line
  rw [hsec]
  rw [if_neg (by simp)]
  rw [if_neg (by simp only [beq_iff_eq]; exact hcm)]

theorem head?_eq_of_chomp {raw : List Char} {c : Char} {rest : List Char}
    (hch : dc_strchomp raw = c :: rest) : raw.head? = some c := by
  rw [head?_of_chomp (by rw [hch]; simp), hch]
  rfl

theorem not_comment_of_chomp_head {raw : List Char} {c : Char} {rest : List Char}
    (hch : dc_strchomp raw = c :: rest) (hc : isChompWS c = true) :
    raw.head? ≠ some '#' := by
  intro h
  rw [head?_eq_of_chomp hch, Option.some_inj] at h
  subst h
  exact absurd hc (by decide)

theorem readChomped_nil (p : Parser) :
    readChomped p [] =
      if (lastSec p).blocks.isEmpty then
        (dcNoErr, addDiag p (.warnMultipleBlank p.ctx))
      else (dcNoErr, { p with sections := p.sections ++ [⟨[]⟩] }) := rfl

theorem readChomped_cons (p : Parser) (c : Char) (rest : List Char) :
    readChomped p (c :: rest) =
      if c.toNat == 32 || c.toNat == 9 then dc_parse_chunk p (c :: rest)
      else dc_parse_block p (c :: rest) := rfl

theorem parse_chunk_cons₂ (p : Parser) (c0 c1 : Char) (rest : List Char)
    (hopen : (lastSec p).blocks.isEmpty = false) :
    dc_parse_chunk p (c0 :: c1 :: rest) =
      if c1 == '.' then
        if rest.isEmpty then
          (dcNoErr, { p with sections := appendChunkLast p.sections ⟨none, .CHUNK_EMPTY, p.ctx⟩ })
        else (dcSyntaxErr, addDiag p (.critReservedDot p.ctx))
      else if c1.toNat == 32 || c1.toNat == 9 then
        (dcNoErr, { p with sections := appendChunkLast p.sections ⟨some rest, .CHUNK_FIXED, p.ctx⟩ })
      else
        (dcNoErr, { p with
          sections := appendChunkLast p.sections ⟨some (c1 :: rest), .CHUNK_MERGE, p.ctx⟩ }) := by
  unfold dc_parse_chunk
  rw [if_neg (by rw [hopen]; simp)]

theorem not_comment_of_chomp_nil {raw : List Char} (hch : dc_strchomp raw = []) :
    raw.head? ≠ some '#' := by
  intro h
  cases raw with
  | nil => exact Option.noConfusion h
  | cons c t =>
    rw [List.head?_cons, Option.some_inj] at h
    subst h
    have := all_ws_of_chomp_nil hch '#' (List.mem_cons_self _ _)
    exact absurd this (by decide)

/-! ## Claim theorems -/

/-- C5: parsing the five-line input `"Source: foo\n"`,
`"Maintainer: A <a@example.com>\n"`, `" continuation line\n"`, `" .\n"`,
`"Section: libs\n"` returns success, emits no warnings, and produces exactly
one section containing exactly the three blocks `Source`, `Maintainer`,
`Section` in order, where `Maintainer`'s chunk list is, in order, a `Fixed`
chunk "A <a@example.com>", a `Merge` chunk "continuation line", and an
`Empty` chunk. -/
theorem claim_C5_end_to_end :
    dc_parser_read_file dc_parser_new [] (some
      ["Source: foo".toList, "Maintainer: A <a@example.com>".toList,
       " continuation line".toList, " .".toList, "Section: libs".toList]) =
    (some dcNoErr,
      ⟨[⟨[⟨"Source".toList, [⟨some "foo".toList, .CHUNK_FIXED, ⟨[], 1⟩⟩]⟩,
         ⟨"Maintainer".toList,
           [⟨some "A <a@example.com>".toList, .CHUNK_FIXED, ⟨[], 2⟩⟩,
            ⟨some "continuation line".toList, .CHUNK_MERGE, ⟨[], 3⟩⟩,
            ⟨none, .CHUNK_EMPTY, ⟨[], 4⟩⟩]⟩,
         ⟨"Section".toList, [⟨some "libs".toList, .CHUNK_FIXED, ⟨[], 5⟩⟩]⟩]⟩],
       ⟨[], 5⟩, []⟩) := by decide

/-- C8 (failing input): reading a readable file with zero lines emits no
diagnostic at all, yet the status returned is the value of the C variable
`rc`, which is declared without an initializer and never assigned when
`getline` immediately reports end of file — modelled as `none`
(indeterminate) rather than the success status the claim requires. -/
theorem claim_C8_empty_file_indeterminate_status :
    dc_parser_read_file dc_parser_new [] (some []) =
      (none, ⟨[⟨[]⟩], ⟨[], 0⟩, []⟩) := by decide

/-- C4 (failing input): parsing the single line `"A:"` succeeds with no
warnings and yields a block whose only chunk has kind `Empty` and no text;
flattening that block cannot produce any text (`dc_parser_block_string`
passes the `NULL` chunk text to `dc_string_append`, which asserts its
argument non-`NULL`), so re-parsing the flattened form cannot yield the
original block back. -/
theorem claim_C4_flatten_fails_on_empty_head :
    dc_parser_read_file dc_parser_new [] (some ["A:".toList]) =
      (some dcNoErr,
        ⟨[⟨[⟨"A".toList, [⟨none, .CHUNK_EMPTY, ⟨[], 1⟩⟩]⟩]⟩], ⟨[], 1⟩, []⟩) ∧
    dc_parser_block_string ⟨"A".toList, [⟨none, .CHUNK_EMPTY, ⟨[], 1⟩⟩]⟩ = none := by
  exact ⟨by decide, by decide⟩

/-- C9 (counterexample): on the input consisting of one blank line the read
returns success, yet the resulting document consists of exactly one section
that contains no blocks — so it is not the case that on success every
section of the document contains at least one block. -/
theorem claim_C9_counterexample :
    (dc_parser_read_file dc_parser_new [] (some [[]])).1 = some dcNoErr ∧
    (dc_parser_read_file dc_parser_new [] (some [[]])).2.sections = [⟨[]⟩] := by
  exact ⟨by decide, by decide⟩

/-- C10: whenever the file-read operation succeeds in opening its input, it
appends exactly one fresh empty section before reading any line (the read is
exactly the line loop started from a document with one empty section); a
readable file with zero lines therefore yields a document with exactly one
section and no blocks, and a document produced by a read with a successfully
opened file never has zero sections. -/
theorem claim_C10_initial_section (path : List Char) (lines : List (List Char)) :
    dc_parser_read_file dc_parser_new path (some lines) =
      readLoop ⟨[⟨[]⟩], ⟨path, 0⟩, []⟩ none lines ∧
    (dc_parser_read_file dc_parser_new path (some [])).2 = ⟨[⟨[]⟩], ⟨path, 0⟩, []⟩ ∧
    (dc_parser_read_file dc_parser_new path (some lines)).2.sections.isEmpty = false := by
  refine ⟨rfl, rfl, ?_⟩
  show (readLoop ⟨[⟨[]⟩], ⟨path, 0⟩, []⟩ none lines).2.sections.isEmpty = false
  exact readLoop_inv (fun p => p.sections.isEmpty = false) sectionsNonempty_step
    lines ⟨[⟨[]⟩], ⟨path, 0⟩, []⟩ none rfl

/-- C1: for every continuation line (a line whose first character is a space
or tab after trailing whitespace is stripped) processed while a block is open
in the current section: if the second character is `'.'`, then when nothing
follows it the appended chunk has kind `Empty` with no text, and otherwise
the call fails with `SyntaxError`; if the second character is a space or tab,
the appended chunk has kind `Fixed` with text equal to the line from the
third character on; otherwise the appended chunk has kind `Merge` with text
equal to the line from the second character on. -/
theorem claim_C1_continuation_classification
    (p : Parser) (raw : List Char) (c0 c1 : Char) (rest : List Char)
    (hch : dc_strchomp raw = c0 :: c1 :: rest)
    (hws : c0.toNat = 32 ∨ c0.toNat = 9)
    (hopen : (lastSec p).blocks.isEmpty = false) :
    ((c1 = '.' ∧ rest = []) →
      dc_parser_read_line p raw =
        (dcNoErr, { bump p with
          sections := appendChunkLast p.sections ⟨none, .CHUNK_EMPTY, (bump p).ctx⟩ })) ∧
    ((c1 = '.' ∧ rest ≠ []) →
      dc_parser_read_line p raw =
        (dcSyntaxErr, addDiag (bump p) (.critReservedDot (bump p).ctx))) ∧
    ((c1.toNat = 32 ∨ c1.toNat = 9) →
      dc_parser_read_line p raw =
        (dcNoErr, { bump p with
          sections := appendChunkLast p.sections ⟨some rest, .CHUNK_FIXED, (bump p).ctx⟩ })) ∧
    ((c1 ≠ '.' ∧ c1.toNat ≠ 32 ∧ c1.toNat ≠ 9) →
      dc_parser_read_line p raw =
        (dcNoErr, { bump p with
          sections := appendChunkLast p.sections ⟨some (c1 :: rest), .CHUNK_MERGE, (bump p).ctx⟩ })) := by
  have hiws : isChompWS c0 = true := by
    rcases hws with h | h <;> simp [isChompWS, h]
  have hsec : p.sections.isEmpty = false := sections_isEmpty_false_of_blocks hopen
  have hmain : dc_parser_read_line p raw = dc_parse_chunk (bump p) (c0 :: c1 :: rest) := by
    rw [read_line_eq_readChomped p raw hsec (not_comment_of_chomp_head hch hiws), hch,
      readChomped_cons]
    rw [if_pos (by rcases hws with h | h <;> simp [h])]
  have hopen2 : (lastSec (bump p)).blocks.isEmpty = false := hopen
  refine ⟨?_, ?_, ?_, ?_⟩
  · rintro ⟨rfl, rfl⟩
    rw [hmain, parse_chunk_cons₂ _ _ _ _ hopen2, if_pos (by simp), if_pos (by simp)]
    rfl
  · rintro ⟨rfl, hne⟩
    have : rest.isEmpty = false := by
      cases rest with
      | nil => exact absurd rfl hne
      | cons a t => rfl
    rw [hmain, parse_chunk_cons₂ _ _ _ _ hopen2, if_pos (by simp), if_neg (by simp [this])]
  · intro h
    have hdot : (c1 == '.') = false := by
      apply beq_eq_false_iff_ne.mpr
      intro hcc
      subst hcc
      rcases h with h | h <;> exact absurd h (by decide)
    rw [hmain, parse_chunk_cons₂ _ _ _ _ hopen2, if_neg (by simp [hdot]),
      if_pos (by rcases h with h | h <;> simp [h])]
    rfl
  · rintro ⟨hdot, h32, h9⟩
    rw [hmain, parse_chunk_cons₂ _ _ _ _ hopen2, if_neg (by simp [hdot]),
      if_neg (by simp [h32, h9])]
    rfl

/-- C1 witness: on a parser whose current section has one open block, the
continuation line " x" appends a `Merge` chunk with text "x". -/
theorem claim_C1_witness :
    dc_parser_read_line ⟨[⟨[⟨['A'], [⟨some ['1'], .CHUNK_FIXED, ⟨[], 1⟩⟩]⟩]⟩], ⟨[], 1⟩, []⟩
        " x".toList =
      (dcNoErr, { bump ⟨[⟨[⟨['A'], [⟨some ['1'], .CHUNK_FIXED, ⟨[], 1⟩⟩]⟩]⟩], ⟨[], 1⟩, []⟩ with
        sections := appendChunkLast [⟨[⟨['A'], [⟨some ['1'], .CHUNK_FIXED, ⟨[], 1⟩⟩]⟩]⟩]
          ⟨some ('x' :: []), .CHUNK_MERGE,
            (bump (⟨[⟨[⟨['A'], [⟨some ['1'], .CHUNK_FIXED, ⟨[], 1⟩⟩]⟩]⟩], ⟨[], 1⟩, []⟩ : Parser)).ctx⟩ }) :=
  (claim_C1_continuation_classification
      ⟨[⟨[⟨['A'], [⟨some ['1'], .CHUNK_FIXED, ⟨[], 1⟩⟩]⟩]⟩], ⟨[], 1⟩, []⟩
      " x".toList (Char.ofNat 32) 'x' [] (by decide) (Or.inl (by decide)) (by decide)).2.2.2
    ⟨by decide, by decide, by decide⟩

/-- C6: a continuation line (first character space or tab after the trailing
whitespace strip) read while the current section contains no blocks makes
the engine emit a critical diagnostic and return `SyntaxError`, and no chunk
or block is appended to the document by that line. -/
theorem claim_C6_continuation_without_block
    (p : Parser) (raw : List Char) (c0 : Char) (rest : List Char)
    (hch : dc_strchomp raw = c0 :: rest)
    (hws : c0.toNat = 32 ∨ c0.toNat = 9)
    (hsec : p.sections.isEmpty = false)
    (hempty : (lastSec p).blocks.isEmpty = true) :
    dc_parser_read_line p raw =
      (dcSyntaxErr, addDiag (bump p) (.critContinuation (bump p).ctx)) ∧
    (dc_parser_read_line p raw).2.sections = p.sections := by
  have hiws : isChompWS c0 = true := by
    rcases hws with h | h <;> simp [isChompWS, h]
  have hmain : dc_parser_read_line p raw =
      (dcSyntaxErr, addDiag (bump p) (.critContinuation (bump p).ctx)) := by
    rw [read_line_eq_readChomped p raw hsec (not_comment_of_chomp_head hch hiws), hch,
      readChomped_cons]
    rw [if_pos (by rcases hws with h | h <;> simp [h])]
    unfold dc_parse_chunk
    rw [if_pos (show (lastSec (bump p)).blocks.isEmpty = true from hempty)]
  exact ⟨hmain, by rw [hmain]; rfl⟩

/-- C6 witness: a continuation line arriving at a fresh document whose only
section is still empty yields `SyntaxError` and leaves the document
unchanged. -/
theorem claim_C6_witness :
    dc_parser_read_line ⟨[⟨[]⟩], ⟨[], 0⟩, []⟩ " x".toList =
      (dcSyntaxErr, addDiag (bump ⟨[⟨[]⟩], ⟨[], 0⟩, []⟩)
        (.critContinuation (bump (⟨[⟨[]⟩], ⟨[], 0⟩, []⟩ : Parser)).ctx)) ∧
    (dc_parser_read_line ⟨[⟨[]⟩], ⟨[], 0⟩, []⟩ " x".toList).2.sections = [⟨[]⟩] :=
  claim_C6_continuation_without_block ⟨[⟨[]⟩], ⟨[], 0⟩, []⟩ " x".toList
    (Char.ofNat 32) ['x'] (by decide) (Or.inl (by decide)) (by decide) (by decide)

/-- C3: parsing `"A: 1\n\n\nB: 2\n"` returns success and yields exactly two
sections (block `A` in the first, block `B` in the second) with the
multiple-blank-lines warning emitted exactly once; in general, an empty line
read while the current section has no blocks yet emits that warning and does
not append a new section, while an empty line read while the current section
is non-empty appends exactly one new empty section. -/
theorem claim_C3_blank_line_collapsing :
    dc_parser_read_file dc_parser_new []
        (some ["A: 1".toList, [], [], "B: 2".toList]) =
      (some dcNoErr,
        ⟨[⟨[⟨['A'], [⟨some ['1'], .CHUNK_FIXED, ⟨[], 1⟩⟩]⟩]⟩,
          ⟨[⟨['B'], [⟨some ['2'], .CHUNK_FIXED, ⟨[], 4⟩⟩]⟩]⟩],
         ⟨[], 4⟩, [.warnMultipleBlank ⟨[], 3⟩]⟩) ∧
    (∀ p raw, p.sections.isEmpty = false → dc_strchomp raw = [] →
      (lastSec p).blocks.isEmpty = true →
      dc_parser_read_line p raw =
        (dcNoErr, addDiag (bump p) (.warnMultipleBlank (bump p).ctx))) ∧
    (∀ p raw, dc_strchomp raw = [] →
      (lastSec p).blocks.isEmpty = false →
      dc_parser_read_line p raw =
        (dcNoErr, { bump p with sections := p.sections ++ [⟨[]⟩] })) := by
  refine ⟨by decide, ?_, ?_⟩
  · intro p raw hsec hch hempty
    rw [read_line_eq_readChomped p raw hsec (not_comment_of_chomp_nil hch), hch,
      readChomped_nil]
    rw [if_pos (show (lastSec (bump p)).blocks.isEmpty = true from hempty)]
  · intro p raw hch hne
    have hsec : p.sections.isEmpty = false := sections_isEmpty_false_of_blocks hne
    rw [read_line_eq_readChomped p raw hsec (not_comment_of_chomp_nil hch), hch,
      readChomped_nil]
    rw [if_neg (by rw [show lastSec (bump p) = lastSec p from rfl, hne]; simp)]
    rfl

/-- C3 witness: a blank line read while the current section already holds a
block opens exactly one new empty section. -/
theorem claim_C3_witness :
    dc_parser_read_line ⟨[⟨[⟨['A'], [⟨some ['1'], .CHUNK_FIXED, ⟨[], 1⟩⟩]⟩]⟩], ⟨[], 1⟩, []⟩ [] =
      (dcNoErr, { bump ⟨[⟨[⟨['A'], [⟨some ['1'], .CHUNK_FIXED, ⟨[], 1⟩⟩]⟩]⟩], ⟨[], 1⟩, []⟩ with
        sections := [⟨[⟨['A'], [⟨some ['1'], .CHUNK_FIXED, ⟨[], 1⟩⟩]⟩]⟩] ++ [⟨[]⟩] }) :=
  claim_C3_blank_line_collapsing.2.2
    ⟨[⟨[⟨['A'], [⟨some ['1'], .CHUNK_FIXED, ⟨[], 1⟩⟩]⟩]⟩], ⟨[], 1⟩, []⟩ []
    (by decide) (by decide)

/-- C2: for every input, every section of the resulting document has pairwise
case-insensitively distinct block names; and when the engine reads a field
line whose name case-insensitively matches a block already opened in the
current section, it emits the duplicate warning exactly once for that
occurrence, creates no new block (all block names of all sections are
unchanged), leaves every section but the current one untouched, and appends
the value chunk to the tail of the existing first-seen matching block. -/
theorem claim_C2_duplicate_fields_merge :
    (∀ path file s, s ∈ (dc_parser_read_file dc_parser_new path file).2.sections →
      sectionOK s) ∧
    (∀ p line field rawtext,
      splitColon line = some (field, rawtext) →
      (lastSec p).blocks.any (nameMatches field) = true →
      (dc_parse_block p line).1 = dcNoErr ∧
      (dc_parse_block p line).2.diags = p.diags ++ [.warnDuplicateField p.ctx] ∧
      ((dc_parse_block p line).2.sections.map fun s => s.blocks.map Block.name) =
        (p.sections.map fun s => s.blocks.map Block.name) ∧
      (dc_parse_block p line).2.sections.dropLast = p.sections.dropLast ∧
      ∃ i, i < (lastSec p).blocks.length ∧
        nameMatches field ((lastSec p).blocks.getD i ⟨[], []⟩) = true ∧
        (∀ j, j < i → nameMatches field ((lastSec p).blocks.getD j ⟨[], []⟩) = false) ∧
        (dc_parse_block p line).2.sections.getLast? =
          some ⟨(lastSec p).blocks.set i
            (blockAppendChunk (mkValueChunk p.ctx rawtext)
              ((lastSec p).blocks.getD i ⟨[], []⟩))⟩) := by
  constructor
  · intro path file s hs
    cases file with
    | none =>
      have hnil : (dc_parser_read_file dc_parser_new path none).2.sections = [] := rfl
      rw [hnil] at hs
      exact absurd hs (List.not_mem_nil s)
    | some lines =>
      have hrw : (dc_parser_read_file dc_parser_new path (some lines)).2 =
          (readLoop ⟨[⟨[]⟩], ⟨path, 0⟩, []⟩ none lines).2 := rfl
      rw [hrw] at hs
      refine readLoop_inv docOK docOK_step lines ⟨[⟨[]⟩], ⟨path, 0⟩, []⟩ none ?_ s hs
      intro s2 hs2
      rw [List.mem_singleton] at hs2
      subst hs2
      exact List.Pairwise.nil
  · intro p line field rawtext hsplit hany
    have hrw : dc_parse_block p line =
        (dcNoErr,
          { p with
            diags := p.diags ++ [.warnDuplicateField p.ctx],
            sections := updateLast
              (fun s => ⟨updateFirstMatch (nameMatches field)
                (blockAppendChunk (mkValueChunk p.ctx rawtext)) s.blocks⟩)
              p.sections }) := by
      unfold dc_parse_block
      rw [hsplit]
      exact if_pos hany
    refine ⟨by rw [hrw], by rw [hrw], ?_, ?_, ?_⟩
    · rw [hrw]
      exact map_updateLast
        (fun s => (⟨updateFirstMatch (nameMatches field)
          (blockAppendChunk (mkValueChunk p.ctx rawtext)) s.blocks⟩ : Sect))
        (fun s => s.blocks.map Block.name)
        (fun s => map_updateFirstMatch (nameMatches field)
          (blockAppendChunk (mkValueChunk p.ctx rawtext)) Block.name (fun b => rfl) s.blocks)
        p.sections
    · rw [hrw]
      exact dropLast_updateLast _ _
    · obtain ⟨i, hi, hqi, hlt, heq⟩ :=
        updateFirstMatch_eq_set (nameMatches field)
          (blockAppendChunk (mkValueChunk p.ctx rawtext)) ⟨[], []⟩ hany
      refine ⟨i, hi, hqi, hlt, ?_⟩
      rw [hrw]
      show (updateLast _ p.sections).getLast? = _
      rw [getLast?_updateLast]
      have hbne : (lastSec p).blocks.isEmpty = false := by
        cases hb : (lastSec p).blocks with
        | nil =>
          rw [hb] at hany
          exact absurd hany (by simp)
        | cons a t => rfl
      have hsne : p.sections.isEmpty = false := sections_isEmpty_false_of_blocks hbne
      cases hgl : p.sections.getLast? with
      | none =>
        rw [List.getLast?_eq_none_iff] at hgl
        rw [hgl] at hsne
        exact absurd hsne (by simp)
      | some a =>
        have hla : lastSec p = a := by
          unfold lastSec
          rw [hgl]
          rfl
        rw [← hla]
        show some (⟨updateFirstMatch (nameMatches field)
          (blockAppendChunk (mkValueChunk p.ctx rawtext)) (lastSec p).blocks⟩ : Sect) = _
        rw [heq]

/-- C2 witness: reading the duplicate field line "a: 2" into a section that
already holds a block named "A" succeeds and emits the duplicate warning
exactly once. -/
theorem claim_C2_witness :
    (dc_parse_block ⟨[⟨[⟨['A'], [⟨some ['1'], .CHUNK_FIXED, ⟨[], 1⟩⟩]⟩]⟩], ⟨[], 2⟩, []⟩
        "a: 2".toList).1 = dcNoErr ∧
    (dc_parse_block ⟨[⟨[⟨['A'], [⟨some ['1'], .CHUNK_FIXED, ⟨[], 1⟩⟩]⟩]⟩], ⟨[], 2⟩, []⟩
        "a: 2".toList).2.diags = [.warnDuplicateField ⟨[], 2⟩] :=
  ⟨(claim_C2_duplicate_fields_merge.2
      ⟨[⟨[⟨['A'], [⟨some ['1'], .CHUNK_FIXED, ⟨[], 1⟩⟩]⟩]⟩], ⟨[], 2⟩, []⟩
      "a: 2".toList ['a'] (' ' :: ['2']) (by decide) (by decide)).1,
   (claim_C2_duplicate_fields_merge.2
      ⟨[⟨[⟨['A'], [⟨some ['1'], .CHUNK_FIXED, ⟨[], 1⟩⟩]⟩]⟩], ⟨[], 2⟩, []⟩
      "a: 2".toList ['a'] (' ' :: ['2']) (by decide) (by decide)).2.1⟩

/-- C7: if, after some prefix of lines that all parsed without error, the
next line is neither a comment, nor blank, nor a continuation, and contains
no colon, then the whole read returns `SyntaxError`, a critical diagnostic is
appended, and the document retains exactly the sections built from the prefix
— nothing from the offending line or any later line is added. -/
theorem claim_C7_halt_on_missing_colon
    (path : List Char) (pre post : List (List Char)) (bad : List Char)
    (hpre : (readLoop ⟨[⟨[]⟩], ⟨path, 0⟩, []⟩ none pre).1 = none ∨
            (readLoop ⟨[⟨[]⟩], ⟨path, 0⟩, []⟩ none pre).1 = some dcNoErr)
    (hcm : bad.head? ≠ some '#')
    (hnb : dc_strchomp bad ≠ [])
    (hcont : Option.all (fun c => !(c.toNat == 32 || c.toNat == 9))
      (dc_strchomp bad).head? = true)
    (hcolon : ':' ∉ bad) :
    dc_parser_read_file dc_parser_new path (some (pre ++ bad :: post)) =
      (some dcSyntaxErr,
        addDiag (bump (readLoop ⟨[⟨[]⟩], ⟨path, 0⟩, []⟩ none pre).2)
          (.critNoColon (bump (readLoop ⟨[⟨[]⟩], ⟨path, 0⟩, []⟩ none pre).2).ctx)) ∧
    (dc_parser_read_file dc_parser_new path (some (pre ++ bad :: post))).2.sections =
      (readLoop ⟨[⟨[]⟩], ⟨path, 0⟩, []⟩ none pre).2.sections ∧
    (dc_parser_read_file dc_parser_new path (some (pre ++ bad :: post))).2.diags =
      (readLoop ⟨[⟨[]⟩], ⟨path, 0⟩, []⟩ none pre).2.diags ++
        [.critNoColon ⟨(readLoop ⟨[⟨[]⟩], ⟨path, 0⟩, []⟩ none pre).2.ctx.path,
          (readLoop ⟨[⟨[]⟩], ⟨path, 0⟩, []⟩ none pre).2.ctx.line + 1⟩] := by
  have hp1sec : (readLoop ⟨[⟨[]⟩], ⟨path, 0⟩, []⟩ none pre).2.sections.isEmpty = false :=
    readLoop_inv (fun p => p.sections.isEmpty = false) sectionsNonempty_step
      pre ⟨[⟨[]⟩], ⟨path, 0⟩, []⟩ none rfl
  have hstep : dc_parser_read_line (readLoop ⟨[⟨[]⟩], ⟨path, 0⟩, []⟩ none pre).2 bad =
      (dcSyntaxErr,
        addDiag (bump (readLoop ⟨[⟨[]⟩], ⟨path, 0⟩, []⟩ none pre).2)
          (.critNoColon (bump (readLoop ⟨[⟨[]⟩], ⟨path, 0⟩, []⟩ none pre).2).ctx)) := by
    rw [read_line_eq_readChomped _ bad hp1sec hcm]
    cases hch : dc_strchomp bad with
    | nil => exact absurd hch hnb
    | cons c rest2 =>
      rw [readChomped_cons]
      have hcws : (c.toNat == 32 || c.toNat == 9) = false := by
        rw [hch] at hcont
        simpa using hcont
      rw [if_neg (by simp [hcws])]
      unfold dc_parse_block
      have hsc : splitColon (c :: rest2) = none := by
        rw [← hch]
        exact splitColon_eq_none (fun hm => hcolon (mem_of_mem_chomp hm))
      rw [hsc]
  have hmain : dc_parser_read_file dc_parser_new path (some (pre ++ bad :: post)) =
      (some dcSyntaxErr,
        addDiag (bump (readLoop ⟨[⟨[]⟩], ⟨path, 0⟩, []⟩ none pre).2)
          (.critNoColon (bump (readLoop ⟨[⟨[]⟩], ⟨path, 0⟩, []⟩ none pre).2).ctx)) := by
    calc dc_parser_read_file dc_parser_new path (some (pre ++ bad :: post)) =
        readLoop ⟨[⟨[]⟩], ⟨path, 0⟩, []⟩ none (pre ++ bad :: post) := rfl
    _ = readLoop (readLoop ⟨[⟨[]⟩], ⟨path, 0⟩, []⟩ none pre).2
          (readLoop ⟨[⟨[]⟩], ⟨path, 0⟩, []⟩ none pre).1 (bad :: post) :=
        readLoop_append _ pre _ none hpre
    _ = _ := by
        rw [readLoop_cons, hstep]
        rfl
  exact ⟨hmain, by rw [hmain]; rfl, by rw [hmain]; rfl⟩

/-- C7 witness: the input "A: 1\n" / "BadLine\n" / "C: 3\n" halts with
`SyntaxError` at line 2. -/
theorem claim_C7_witness :
    (dc_parser_read_file dc_parser_new []
      (some ["A: 1".toList, "BadLine".toList, "C: 3".toList])).1 = some dcSyntaxErr :=
  congrArg Prod.fst
    (claim_C7_halt_on_missing_colon [] ["A: 1".toList] ["C: 3".toList] "BadLine".toList
      (Or.inr (by decide)) (by decide) (by decide) (by decide) (by decide)).1

/-- C9 (amended): after a read operation that returns success, every section
of the resulting document other than the last one contains at least one
block; only the final (current) section may be left without blocks, as
happens when the input ends at a blank-line paragraph boundary or consists
only of blank lines. -/
theorem claim_C9_amended_nonlast_sections_nonempty
    (path : List Char) (file : Option (List (List Char)))
    (hok : (dc_parser_read_file dc_parser_new path file).1 = some dcNoErr) :
    ∀ s ∈ (dc_parser_read_file dc_parser_new path file).2.sections.dropLast,
      s.blocks.isEmpty = false := by
  cases file with
  | none =>
    have hnil : (dc_parser_read_file dc_parser_new path none).2.sections = [] := rfl
    rw [hnil]
    intro s hs
    exact absurd hs (by simp)
  | some lines =>
    have hrw : (dc_parser_read_file dc_parser_new path (some lines)).2 =
        (readLoop ⟨[⟨[]⟩], ⟨path, 0⟩, []⟩ none lines).2 := rfl
    rw [hrw]
    refine readLoop_inv nonTailNonempty nonTail_step lines ⟨[⟨[]⟩], ⟨path, 0⟩, []⟩ none ?_
    intro s hs
    exact absurd hs (by simp)

/-- C9 amended witness: in the successfully parsed two-section document for
"A: 1\n\nB: 2\n", the non-last section holding block `A` is non-empty. -/
theorem claim_C9_amended_witness :
    (⟨[⟨['A'], [⟨some ['1'], .CHUNK_FIXED, ⟨[], 1⟩⟩]⟩]⟩ : Sect).blocks.isEmpty = false :=
  claim_C9_amended_nonlast_sections_nonempty []
    (some ["A: 1".toList, [], "B: 2".toList]) (by decide)
    ⟨[⟨['A'], [⟨some ['1'], .CHUNK_FIXED, ⟨[], 1⟩⟩]⟩]⟩ (by decide)

end Debctrl
